import Mathlib

/-!
Shallow embedding of the webbed_hook server-side Git hook binary
(`src/main.rs`, `src/rule.rs`, `src/webhook.rs`, `src/git.rs`,
`src/configuration.rs`, `core/src/webhook.rs`).

Effectful boundaries (spawning `git`, the HTTP client, deserialisation
libraries) are modelled as oracle functions gathered in an `Env` record;
everything the repository itself computes is translated directly from the
Rust source.  Compiled regular expressions (`regex::Regex`) are modelled as
their matching function `String → Bool`; `std::time::Duration` values are
modelled as their millisecond count (`Nat`), which is how the configuration
deserialises them (`DurationMilliSeconds<u64>`).  Laziness of the per-change
fact bundle (`LazyCell`) is dropped: facts are the values the closures would
compute, which is observationally equal for the single-threaded evaluator.
-/

namespace WebbedHook

/-- Source: `git.rs`: `enum FileStatus`. -/
inductive FileStatus where
  | added
  | copied
  | deleted
  | modified
  | renamed
  | typeChanged
  | unmerged
  | unknown
  | brokenPairing
deriving DecidableEq, Repr

/-- Source: `git.rs`: `impl FromStr for FileStatus`; `Err` is collapsed to `none`
because every caller applies `.ok()`. -/
def FileStatus.from_str (s : String) : Option FileStatus :=
  match s with
  | "A" => some FileStatus.added
  | "C" => some FileStatus.copied
  | "D" => some FileStatus.deleted
  | "M" => some FileStatus.modified
  | "R" => some FileStatus.renamed
  | "T" => some FileStatus.typeChanged
  | "U" => some FileStatus.unmerged
  | "X" => some FileStatus.unknown
  | "B" => some FileStatus.brokenPairing
  | _ => none

/-- Source: `core/src/webhook.rs`: `struct GitLogEntry`.  `DateTime<Utc>` instants
are modelled as integers. -/
structure GitLogEntry where
  hash : String
  parents : List String
  author : String
  author_date : Int
  committer : String
  committer_date : Int
  signed_by_key_id : Option String
  message : String
deriving DecidableEq, Repr

/-- The `nonempty::NonEmpty` container: a head plus a possibly empty tail. -/
structure NE (α : Type) where
  head : α
  tail : List α
deriving DecidableEq, Repr

def NE.toList {α : Type} (l : NE α) : List α := l.head :: l.tail

/-- Source: `serde_json::Value`, used for the opaque webhook `config` payload. -/
inductive Value where
  | null
  | bool (b : Bool)
  | num (n : Int)
  | str (s : String)
  | arr (elems : List Value)
  | obj (fields : List (String × Value))

/-- Source: `configuration.rs`: `Pattern` wraps a compiled `regex::Regex`; the
compiled regex is modelled by its matching function. -/
structure Pattern where
  isMatch : String → Bool

/-- Source: `rule.rs`: `struct WebhookRule` (the webhook leaf configuration).
Timeouts are milliseconds. -/
structure WebhookRule where
  url : String
  config : Option Value
  request_timeout : Option Nat
  connect_timeout : Option Nat
  greeting_messages : Option (NE String)

/-- Source: `main.rs`: `struct GitData` — the per-change fact bundle, with the lazy
cells replaced by the values they compute. -/
structure GitData where
  patch : Option String
  log : List GitLogEntry
  file_status : List (FileStatus × String)

/-- Source: `main.rs`: `enum Change`. -/
inductive Change where
  | addRef (name : String) (commit : String) (git_data : GitData)
  | removeRef (name : String) (commit : String)
  | updateRef (name : String) (old_commit : String) (new_commit : String)
      (merge_base : Option String) (force : Bool) (git_data : GitData)

/-- Source: `main.rs`: `Change::ref_name`. -/
def Change.ref_name : Change → String
  | Change.addRef name _ _ => name
  | Change.removeRef name _ => name
  | Change.updateRef name _ _ _ _ _ => name

/-- Source: `main.rs`: `struct ChangeLine` — one parsed `<old> <new> <ref>` input. -/
structure ChangeLine where
  old_commit : String
  new_commit : String
  ref_name : String

/-- Source: `webhook.rs`: `enum HookError` — `reqwest::Error` payloads are modelled
as strings. -/
inductive HookError where
  | request (e : String)
  | validation (msg : String)

/-- Source: `rule.rs`: `enum RuleAction`. -/
inductive RuleAction where
  | accept
  | reject
  | cont
deriving DecidableEq, Repr

/-- Source: `rule.rs`: `struct RuleResult`. -/
structure RuleResult where
  action : RuleAction
  messages : List String
deriving DecidableEq, Repr

/-- Source: `rule.rs`: `struct OnRuleComplete`. -/
structure OnRuleComplete where
  action : RuleAction
  messages : List String

/-- Source: `rule.rs`: `impl OptionOnRuleComplete for Option<OnRuleComplete>`,
method `to_rule_result`. -/
def to_rule_result (o : Option OnRuleComplete) (defaultAction : RuleAction) : RuleResult :=
  match o with
  | some c => { action := c.action, messages := c.messages }
  | none => { action := defaultAction, messages := [] }

/- `rule.rs`: the mutually recursive `Condition` / `Rule` AST.  The
`NonEmpty<Condition>` / `NonEmpty<Box<Rule>>` containers of the composite
constructors are encoded with a head field plus an in-block list type
(`CondList` / `RuleList`), `Vec<RuleBranch>` as `BranchList`, and
`Option<Box<Rule>>` as `ORule`, so that the whole AST sits in one mutual
inductive block. -/
mutual

inductive Condition where
  | refIs (name : String)
  | refMatches (pattern : Pattern)
  | anyCommitMessageMatches (pattern : Pattern) (accept_removes : Option Bool)
  | modifiedFileMatches (pattern : Pattern) (accept_removes : Option Bool)
  | addedFileMatches (pattern : Pattern) (accept_removes : Option Bool)
  | removedFileMatches (pattern : Pattern) (accept_removes : Option Bool)
  | derivedFromDefaultBranch (accept_removes : Option Bool)
  | derivedFromBranch (accept_removes : Option Bool) (name : String)
  | allCommitsSigned (allowed_key_ids : Option (NE String))
  | linearHistory
  | refAdd
  | refRemove
  | refUpdate
  | and (head : Condition) (tail : CondList)
  | or (head : Condition) (tail : CondList)
  | xor (head : Condition) (tail : CondList)
  | not (condition : Condition)
  | tt
  | ff
  | bypassRequested (option : String)
  | rule (rule : Rule)
  | isTag (name : String)

inductive CondList where
  | nil
  | cons (c : Condition) (rest : CondList)

inductive Rule where
  | chain (head : Rule) (tail : RuleList)
  | select (firstOf : BranchList) (dflt : ORule)
  | webhook (w : WebhookRule)
  | accept (messages : List String)
  | reject (messages : List String)
  | conditional (condition : Condition) (onSuccess : Option OnRuleComplete)
      (onFailure : Option OnRuleComplete)

inductive RuleList where
  | nil
  | cons (r : Rule) (rest : RuleList)

/-- Source: `rule.rs`: `Vec<RuleBranch>` with `RuleBranch { condition, rule }`. -/
inductive BranchList where
  | nil
  | cons (condition : Condition) (rule : Rule) (rest : BranchList)

/-- Source: `Option<Box<Rule>>`, inside the mutual block. -/
inductive ORule where
  | none
  | some (r : Rule)

end

def RuleList.ofList : List Rule → RuleList
  | [] => RuleList.nil
  | r :: rest => RuleList.cons r (RuleList.ofList rest)

def CondList.ofList : List Condition → CondList
  | [] => CondList.nil
  | c :: rest => CondList.cons c (CondList.ofList rest)

/- `rule.rs`: mutually recursive error enums. -/
mutual

inductive ConditionError where
  | ruleError (e : RuleError)

inductive RuleError where
  | conditionError (e : ConditionError)
  | webhookError (e : HookError)

end

/-- Source: `configuration.rs`: `struct HookBypass`. -/
structure HookBypass where
  push_option : String
  messages : Option (List String)

/-- The per-hook configuration consumed by `main.rs` (`hook.rule`,
`hook.reject_on_error`). -/
structure HookCfg where
  rule : Rule
  reject_on_error : Option Bool

/-- Source: `configuration.rs`: `struct ConfigurationVersion1`. -/
structure ConfigurationVersion1 where
  pre_receive : Option HookCfg
  post_receive : Option HookCfg
  update : Option HookCfg
  bypass : Option HookBypass

/-- Source: `configuration.rs`: `enum Configuration` (tagged on `version`). -/
inductive Configuration where
  | version1 (v1 : ConfigurationVersion1)

/-- Source: `webhook.rs`: `struct WebhookResult(pub bool, pub …)` — the HTTP success
bit plus the decoded response messages. -/
structure WebhookResult where
  ok : Bool
  messages : List String
deriving DecidableEq, Repr

/-- The observable outcome of a completed HTTP exchange: the status code and
the response body decoded as `Vec<String>` (`none` when decoding fails],
mirroring `res.json::<Vec<String>>().ok()`). -/
structure HttpResponse where
  status : Nat
  body_decoded : Option (List String)

/-- Source: `reqwest::StatusCode::is_success`: `200 ≤ status < 300`. -/
def statusIsSuccess (status : Nat) : Bool :=
  200 ≤ status && status < 300

/-- Source: `webhook.rs` lines 250–258: the `.map` closure applied to a completed
response — success bit from the status class, messages from decoding the
body with a default of the empty list. -/
def webhookResultOfResponse (r : HttpResponse) : WebhookResult :=
  { ok := statusIsSuccess r.status, messages := r.body_decoded.getD [] }

/-- The oracle record for every effectful boundary the engine touches:
`git` subprocess results, the HTTP transport of the webhook leaf, and the
external deserialisation libraries used by the configuration loader. -/
structure Env where
  merge_base : String → String → Option String
  diff : String → String → Option String
  diff_name_status : String → String → List (FileStatus × String)
  git_log_for_range : String → String → List GitLogEntry
  git_log_limited : Nat → String → List GitLogEntry
  webhook : String → List String → WebhookRule → Change → Except HookError WebhookResult
  show_file : String → Except String (Option String)
  parse_yaml : String → Except String Configuration
  parse_toml : String → Except String Configuration

/-- Source: `rule.rs`: `struct RuleContext` (the `config` field is carried only for
trace output, which is purely observational, and is omitted). -/
structure RuleContext where
  default_branch : String
  push_options : List String
  change : Change

theorem RuleList.sizeOf_pos (l : RuleList) : 0 < sizeOf l := by
  cases l <;> simp_arith

/-- Source: `rule.rs`: `fn is_derived_from` — `merge_base(ref_a, ref_b).is_some()`
with the remove-side `accept_removes` default of `false`. -/
def is_derived_from (env : Env) (refA : String) (change : Change)
    (accept_removes : Option Bool) : Except ConditionError Bool :=
  match change with
  | Change.updateRef _ _ new_commit _ _ _ => Except.ok (env.merge_base refA new_commit).isSome
  | Change.addRef _ commit _ => Except.ok (env.merge_base refA commit).isSome
  | Change.removeRef _ _ => Except.ok (accept_removes.getD false)

/-- Source: `rule.rs`: `fn any_file_matches` — scans the change's file-status fact;
on `RemoveRef` returns `accept_removes` defaulting to `true`. -/
def any_file_matches (ctx : RuleContext) (accept_removes : Option Bool)
    (filter : FileStatus → Bool) (pattern : Pattern) : Except ConditionError Bool :=
  match ctx.change with
  | Change.addRef _ _ gd =>
      Except.ok (gd.file_status.any fun p => filter p.1 && pattern.isMatch p.2)
  | Change.updateRef _ _ _ _ _ gd =>
      Except.ok (gd.file_status.any fun p => filter p.1 && pattern.isMatch p.2)
  | Change.removeRef _ _ => Except.ok (accept_removes.getD true)

/-- Source: `rule.rs`: `fn get_commit_log` — the log fact, absent on `RemoveRef`. -/
def get_commit_log (ctx : RuleContext) : Option (List GitLogEntry) :=
  match ctx.change with
  | Change.updateRef _ _ _ _ _ gd => some gd.log
  | Change.addRef _ _ gd => some gd.log
  | Change.removeRef _ _ => none

/-- Source: `rule.rs` lines 290–301: the `AllCommitsSigned` allow-list loop.  Each
entry must be signed with a key contained in the allow-list or the loop
returns `false` early; the fall-through after the loop is `Ok(false)` in the
source, so the function is translated with that fall-through intact. -/
def signedAllowedLoop (allowed : List String) : List GitLogEntry → Bool
  | [] => false
  | e :: rest =>
      match e.signed_by_key_id with
      | some id => if allowed.contains id then signedAllowedLoop allowed rest else false
      | none => false

mutual

/-- Source: `rule.rs`: `Condition::evaluate_traced` (tracing and the `depth`
argument are purely observational and omitted). -/
def evalCond (env : Env) (ctx : RuleContext) : Condition → Except ConditionError Bool
  | Condition.refIs name => Except.ok (ctx.change.ref_name == name)
  | Condition.refMatches pattern => Except.ok (pattern.isMatch ctx.change.ref_name)
  | Condition.anyCommitMessageMatches pattern accept_removes =>
      match get_commit_log ctx with
      | some log => Except.ok (log.any fun e => pattern.isMatch e.message)
      | none => Except.ok (accept_removes.getD true)
  | Condition.modifiedFileMatches pattern accept_removes =>
      any_file_matches ctx accept_removes
        (fun s => s == FileStatus.modified || s == FileStatus.renamed) pattern
  | Condition.addedFileMatches pattern accept_removes =>
      any_file_matches ctx accept_removes (fun s => s == FileStatus.added) pattern
  | Condition.removedFileMatches pattern accept_removes =>
      any_file_matches ctx accept_removes (fun s => s == FileStatus.deleted) pattern
  | Condition.derivedFromDefaultBranch accept_removes =>
      is_derived_from env ctx.default_branch ctx.change accept_removes
  | Condition.derivedFromBranch accept_removes name =>
      is_derived_from env name ctx.change accept_removes
  | Condition.bypassRequested option => Except.ok (ctx.push_options.contains option)
  | Condition.and head tail => do
      let b ← evalCond env ctx head
      if !b then Except.ok false else evalAndList env ctx tail
  | Condition.or head tail => do
      let b ← evalCond env ctx head
      if b then Except.ok true else evalOrList env ctx tail
  | Condition.xor head tail =>
      match tail with
      | CondList.nil => Except.ok true
      | CondList.cons c rest => do
          let first ← evalCond env ctx head
          xorLoop env ctx first (CondList.cons c rest)
  | Condition.not condition => do
      let b ← evalCond env ctx condition
      Except.ok (!b)
  | Condition.tt => Except.ok true
  | Condition.ff => Except.ok false
  | Condition.rule rule =>
      match evalRule env ctx rule with
      | Except.ok r =>
          match r.action with
          | RuleAction.accept => Except.ok true
          | RuleAction.reject => Except.ok false
          | RuleAction.cont => Except.ok true
      | Except.error err => Except.error (ConditionError.ruleError err)
  | Condition.refAdd =>
      match ctx.change with
      | Change.addRef _ _ _ => Except.ok true
      | Change.removeRef _ _ => Except.ok false
      | Change.updateRef _ _ _ _ _ _ => Except.ok false
  | Condition.refRemove =>
      match ctx.change with
      | Change.addRef _ _ _ => Except.ok false
      | Change.removeRef _ _ => Except.ok true
      | Change.updateRef _ _ _ _ _ _ => Except.ok false
  | Condition.refUpdate =>
      match ctx.change with
      | Change.addRef _ _ _ => Except.ok false
      | Change.removeRef _ _ => Except.ok false
      | Change.updateRef _ _ _ _ _ _ => Except.ok true
  | Condition.linearHistory =>
      match ctx.change with
      | Change.addRef _ _ _ => Except.ok true
      | Change.removeRef _ _ => Except.ok true
      | Change.updateRef _ _ _ _ force _ => Except.ok (!force)
  | Condition.allCommitsSigned allowed_key_ids =>
      match get_commit_log ctx with
      | none => Except.ok true
      | some log =>
          match allowed_key_ids with
          | some allowed => Except.ok (signedAllowedLoop allowed.toList log)
          | none => Except.ok (log.all fun e => e.signed_by_key_id.isSome)
  | Condition.isTag name => Except.ok (ctx.change.ref_name == "refs/tags/" ++ name)
termination_by c => sizeOf c
decreasing_by all_goals (simp_wf <;> omega)

/-- The `And` loop over the remaining conditions. -/
def evalAndList (env : Env) (ctx : RuleContext) : CondList → Except ConditionError Bool
  | CondList.nil => Except.ok true
  | CondList.cons c rest => do
      let b ← evalCond env ctx c
      if !b then Except.ok false else evalAndList env ctx rest
termination_by l => sizeOf l
decreasing_by all_goals (simp_wf <;> omega)

/-- The `Or` loop over the remaining conditions. -/
def evalOrList (env : Env) (ctx : RuleContext) : CondList → Except ConditionError Bool
  | CondList.nil => Except.ok false
  | CondList.cons c rest => do
      let b ← evalCond env ctx c
      if b then Except.ok true else evalOrList env ctx rest
termination_by l => sizeOf l
decreasing_by all_goals (simp_wf <;> omega)

/-- The `Xor` tail loop: returns `true` at the first child whose value
differs from the head's value, `false` when the loop completes. -/
def xorLoop (env : Env) (ctx : RuleContext) (first : Bool) :
    CondList → Except ConditionError Bool
  | CondList.nil => Except.ok false
  | CondList.cons c rest => do
      let other ← evalCond env ctx c
      if other != first then Except.ok true else xorLoop env ctx first rest
termination_by l => sizeOf l
decreasing_by all_goals (simp_wf <;> omega)

/-- Source: `rule.rs`: `Rule::evaluate_traced`.  The webhook arm's conversion of the
change into the wire envelope and the HTTP call are the `env.webhook`
oracle, invoked exactly as `perform_request(context.default_branch,
context.push_options, condition, vec![change])`. -/
def evalRule (env : Env) (ctx : RuleContext) : Rule → Except RuleError RuleResult
  | Rule.chain head tail =>
      match chainLoop env ctx head tail with
      | Except.ok r =>
          Except.ok (if r.action == RuleAction.cont then { r with action := RuleAction.accept } else r)
      | Except.error e => Except.error e
  | Rule.select firstOf dflt => selectLoop env ctx firstOf dflt
  | Rule.conditional condition onSuccess onFailure =>
      match evalCond env ctx condition with
      | Except.ok true => Except.ok (to_rule_result onSuccess RuleAction.cont)
      | Except.ok false => Except.ok (to_rule_result onFailure RuleAction.reject)
      | Except.error err => Except.error (RuleError.conditionError err)
  | Rule.webhook w =>
      match env.webhook ctx.default_branch ctx.push_options w ctx.change with
      | Except.ok res =>
          Except.ok { action := if res.ok then RuleAction.cont else RuleAction.reject,
                      messages := res.messages }
      | Except.error err => Except.error (RuleError.webhookError err)
  | Rule.accept messages => Except.ok { action := RuleAction.accept, messages }
  | Rule.reject messages => Except.ok { action := RuleAction.reject, messages }
termination_by r => sizeOf r
decreasing_by all_goals (simp_wf <;> omega)

/-- The `Chain` loop: each sub-result overwrites the carried result; the
loop breaks at the first `Accept` or `Reject` and falls off the end after
the last sub-rule otherwise. -/
def chainLoop (env : Env) (ctx : RuleContext) (r : Rule) :
    RuleList → Except RuleError RuleResult
  | RuleList.nil => evalRule env ctx r
  | RuleList.cons r2 rest2 => do
      let res ← evalRule env ctx r
      match res.action with
      | RuleAction.accept => pure res
      | RuleAction.reject => pure res
      | RuleAction.cont => chainLoop env ctx r2 rest2
termination_by l => sizeOf r + sizeOf l
decreasing_by all_goals (simp_wf <;> omega)

/-- The `Select` loop over branches, falling back to the default (or the
`{Reject, []}` result) when no branch condition holds. -/
def selectLoop (env : Env) (ctx : RuleContext) :
    BranchList → ORule → Except RuleError RuleResult
  | BranchList.nil, ORule.none =>
      Except.ok { action := RuleAction.reject, messages := [] }
  | BranchList.nil, ORule.some rule => evalRule env ctx rule
  | BranchList.cons condition rule rest, dflt =>
      match evalCond env ctx condition with
      | Except.ok true => evalRule env ctx rule
      | Except.ok false => selectLoop env ctx rest dflt
      | Except.error err => Except.error (RuleError.conditionError err)
termination_by branches dflt => sizeOf branches + sizeOf dflt
decreasing_by all_goals (simp_wf <;> omega)

end

/-! ## Webhook leaf (`webhook.rs`) -/

/-- Source: `webhook.rs`: `MAX_CONNECT_TIMEOUT = Duration::from_secs(5)`, in ms. -/
def MAX_CONNECT_TIMEOUT : Nat := 5000

/-- Source: `webhook.rs`: `DEFAULT_CONNECT_TIMEOUT = Duration::from_secs(1)`, in ms. -/
def DEFAULT_CONNECT_TIMEOUT : Nat := 1000

/-- Source: `webhook.rs`: `MAX_REQUEST_TIMEOUT = Duration::from_secs(20)`, in ms. -/
def MAX_REQUEST_TIMEOUT : Nat := 20000

/-- Source: `webhook.rs`: `DEFAULT_REQUEST_TIMEOUT = Duration::from_secs(3)`, in ms. -/
def DEFAULT_REQUEST_TIMEOUT : Nat := 3000

/-- Source: `webhook.rs`: `fn perform_request`, with the built HTTP client and the
`.send()` call abstracted into the `transport` argument — the outcome the
network would produce if reached.  The timeout validation is translated
verbatim from the source: the first guard compares `connect_timeout`
against `MAX_CONNECT_TIMEOUT`; the second guard in the source also compares
`connect_timeout` (not `request_timeout`) against `MAX_REQUEST_TIMEOUT`,
and that comparison is kept as written. -/
def perform_request (w : WebhookRule) (transport : Except String HttpResponse) :
    Except HookError WebhookResult :=
  let connect_timeout := w.connect_timeout.getD DEFAULT_CONNECT_TIMEOUT
  if MAX_CONNECT_TIMEOUT < connect_timeout then
    Except.error (HookError.validation
      (s!"Connect timeout of {connect_timeout}ms is longer than maximum value of " ++
        s!"{MAX_CONNECT_TIMEOUT}ms"))
  else
    let request_timeout := w.request_timeout.getD DEFAULT_REQUEST_TIMEOUT
    if MAX_REQUEST_TIMEOUT < connect_timeout then
      Except.error (HookError.validation
        (s!"Request timeout of {request_timeout}ms is longer than maximum value of " ++
          s!"{MAX_REQUEST_TIMEOUT}ms"))
    else
      match transport with
      | Except.ok res => Except.ok (webhookResultOfResponse res)
      | Except.error e => Except.error (HookError.request e)

/-! ## Change resolution (`main.rs`) -/

/-- Source: `main.rs`: `fn is_hash_all_zeros` — `hash.chars().all(|c| c == '0')`. -/
def is_hash_all_zeros (hash : String) : Bool :=
  hash.toList.all fun c => c == '0'

/-- Source: `main.rs`: `fn lazy_log` with the lazy cell forced: the log spans
`(base, new]` when a base is given and falls back to the 100 most recent
commits reachable from `new` otherwise. -/
def lazy_log (env : Env) (base : Option String) (new_commit : String) : List GitLogEntry :=
  match base with
  | some b => env.git_log_for_range b new_commit
  | none => env.git_log_limited 100 new_commit

/-- Source: `main.rs`: `fn resolve_change` — classifies the input line by which side
is the all-zero sentinel and constructs the matching `Change` variant,
deriving `force` from the merge base on updates. -/
def resolve_change (env : Env) (default_branch : String) (line : ChangeLine) : Option Change :=
  let oldExists := !is_hash_all_zeros line.old_commit
  let newExists := !is_hash_all_zeros line.new_commit
  let patch := env.diff line.old_commit line.new_commit
  let file_status := env.diff_name_status line.old_commit line.new_commit
  match oldExists, newExists with
  | true, true =>
      let mb := env.merge_base line.old_commit line.new_commit
      let log := lazy_log env mb line.new_commit
      let force :=
        match mb with
        | some base => base != line.old_commit
        | none => true
      some (Change.updateRef line.ref_name line.old_commit line.new_commit mb force
        { patch, log, file_status })
  | true, false => some (Change.removeRef line.ref_name line.old_commit)
  | false, true =>
      let mb := env.merge_base default_branch line.new_commit
      let log := lazy_log env mb line.new_commit
      some (Change.addRef line.ref_name line.new_commit { patch, log, file_status })
  | false, false => none

/-! ## Configuration loading (`main.rs`, `git.rs`) -/

/-- Source: `main.rs`: `fn load_config` — reads the file off the default branch via
`git show HEAD:<name>` and feeds any present content to the parser; a
missing file is `Ok(None)` and a parse failure is an `Err`. -/
def load_config (env : Env) (name : String)
    (parse : String → Except String Configuration) :
    Except String (Option Configuration) :=
  match env.show_file name with
  | Except.error e => Except.error e
  | Except.ok none => Except.ok none
  | Except.ok (some content) =>
      match parse content with
      | Except.ok c => Except.ok (some c)
      | Except.error err => Except.error err

/-- Source: `main.rs`: `fn load_config_from_default_branch` — tries `hooks.yaml`,
`hooks.yml`, `hooks.toml` in that order, propagating errors and returning
the first configuration found. -/
def load_config_from_default_branch (env : Env) : Except String (Option Configuration) :=
  match load_config env "hooks.yaml" env.parse_yaml with
  | Except.error e => Except.error e
  | Except.ok (some yaml) => Except.ok (some yaml)
  | Except.ok none =>
    match load_config env "hooks.yml" env.parse_yaml with
    | Except.error e => Except.error e
    | Except.ok (some yaml) => Except.ok (some yaml)
    | Except.ok none =>
      match load_config env "hooks.toml" env.parse_toml with
      | Except.error e => Except.error e
      | Except.ok (some toml) => Except.ok (some toml)
      | Except.ok none => Except.ok none

/-- The observable outcome of `main`'s configuration-loading stage
(`main.rs` lines 279–290): either the process exits (with the given exit
code, and a diagnostic on stderr for the parse-failure arm) before any rule
is evaluated against any change, or evaluation proceeds with the loaded
configuration. -/
inductive ConfigStageOutcome where
  | exitWithoutEvaluation (code : Nat) (diagnostic : Option String)
  | proceed (c : Configuration)

/-- Source: `main.rs` lines 279–290: the `match load_config_from_default_branch()`
at the top of `main` — `Ok(Some)` proceeds, `Ok(None)` exits 0 silently,
`Err` prints a diagnostic and exits 0. -/
def mainConfigStage (env : Env) : ConfigStageOutcome :=
  match load_config_from_default_branch env with
  | Except.ok (some c) => ConfigStageOutcome.proceed c
  | Except.ok none => ConfigStageOutcome.exitWithoutEvaluation 0 none
  | Except.error err =>
      ConfigStageOutcome.exitWithoutEvaluation 0
        (some ("Failed to parse hook configuration: " ++ err))

/-- Source: `configuration.rs`: `fn parse_pattern` — rejects the empty string, then
defers to the `regex` crate's compiler (the `compile` oracle; `none` models
a compile error). -/
def parse_pattern (s : String) (compile : String → Option Pattern) :
    Except String Pattern :=
  if s.isEmpty then Except.error "invalid length 0, expected non-empty regex"
  else
    match compile s with
    | some p => Except.ok p
    | none => Except.error "invalid value, expected a valid regex"

/-! ## `git diff --name-status` parsing (`git.rs`) -/

/-- Source: `char::is_ascii_whitespace`: space, tab, newline, form feed, carriage
return. -/
def isAsciiWhitespaceChar (c : Char) : Bool :=
  c == ' ' || c == '\t' || c == '\n' || c == '\x0c' || c == '\r'

/-- Source: `str::split_ascii_whitespace`: the non-empty maximal runs between ASCII
whitespace characters. -/
def splitAsciiWhitespace (s : String) : List String :=
  (s.split fun c => isAsciiWhitespaceChar c).filter fun t => t ≠ ""

/-- Source: `git.rs` lines 191–201: the per-line closure inside `parse_name_status`.
A line that failed to read (`line.ok()?`) is `none`; otherwise the trimmed
line is split on ASCII whitespace, the first token must parse as a
`FileStatus`, the second becomes the path, and any third token drops the
line. -/
def parse_name_status_line (line : Option String) : Option (FileStatus × String) :=
  match line with
  | none => none
  | some line =>
      match splitAsciiWhitespace line.trim with
      | [] => none
      | t1 :: rest =>
          match FileStatus.from_str t1 with
          | none => none
          | some status =>
              match rest with
              | [] => none
              | name :: rest2 =>
                  match rest2 with
                  | [] => some (status, name)
                  | _ :: _ => none

/-- Source: `git.rs`: `fn parse_name_status` — `filter_map` of the per-line
closure over the input lines. -/
def parse_name_status (lines : List (Option String)) : List (FileStatus × String) :=
  lines.filterMap parse_name_status_line

/-! ## Shared evaluation helpers for the theorems -/

theorem exceptBind_ok {ε α β : Type} (a : α) (f : α → Except ε β) :
    (Except.ok a : Except ε α) >>= f = f a := rfl

theorem exceptBind_error {ε α β : Type} (e : ε) (f : α → Except ε β) :
    (Except.error e : Except ε α) >>= f = (Except.error e : Except ε β) := rfl

/-- A concrete oracle record used by witnesses: every effect answers with
the least informative value. -/
def trivEnv : Env :=
  { merge_base := fun _ _ => none
    diff := fun _ _ => none
    diff_name_status := fun _ _ => []
    git_log_for_range := fun _ _ => []
    git_log_limited := fun _ _ => []
    webhook := fun _ _ _ _ => Except.error (HookError.request "no transport")
    show_file := fun _ => Except.ok none
    parse_yaml := fun _ => Except.error "no parser"
    parse_toml := fun _ => Except.error "no parser" }

/-- A concrete context used by witnesses. -/
def ctxRemove : RuleContext := ⟨"main", [], Change.removeRef "refs/heads/x" "c0ffee"⟩

/-- The boolean value of every condition in the list, provided each one
evaluates without error. -/
def condValues (env : Env) (ctx : RuleContext) : CondList → Option (List Bool)
  | CondList.nil => some []
  | CondList.cons c rest =>
      match evalCond env ctx c with
      | Except.ok b => (condValues env ctx rest).map (fun bs => b :: bs)
      | Except.error _ => none

theorem xorLoop_eq_any (env : Env) (ctx : RuleContext) (first : Bool) :
    ∀ (l : CondList) (bs : List Bool), condValues env ctx l = some bs →
      xorLoop env ctx first l = Except.ok (bs.any fun x => x != first)
  | CondList.nil, bs, h => by
      simp [condValues] at h
      subst h
      simp [xorLoop]
  | CondList.cons c rest, bs, h => by
      rw [condValues] at h
      cases hc : evalCond env ctx c with
      | error e => rw [hc] at h; simp at h
      | ok b =>
          rw [hc] at h
          cases hr : condValues env ctx rest with
          | none => rw [hr] at h; simp at h
          | some bs2 =>
              rw [hr] at h
              simp at h
              subst h
              rw [xorLoop, hc, exceptBind_ok]
              by_cases hb : b = first
              · subst hb
                simp [xorLoop_eq_any env ctx b rest bs2 hr]
              · have hbne : (b != first) = true := by simp [bne_iff_ne, hb]
                simp [hbne]

/-- C3: for every xor composite condition whose children all evaluate
without error: with exactly one child (`tail = nil`) the result is true;
with two or more children the result is true if and only if the children's
boolean values `b :: bs` are not all equal, i.e. some child value differs
from the head's value. -/
theorem xor_composite_semantics (env : Env) (ctx : RuleContext)
    (head : Condition) (tail : CondList) (b : Bool) (bs : List Bool)
    (hh : evalCond env ctx head = Except.ok b)
    (ht : condValues env ctx tail = some bs) :
    evalCond env ctx (Condition.xor head tail) =
      Except.ok (match tail with
        | CondList.nil => true
        | CondList.cons _ _ => bs.any fun x => x != b) := by
  cases tail with
  | nil => simp [evalCond]
  | cons c rest =>
      rw [evalCond, hh, exceptBind_ok]
      exact xorLoop_eq_any env ctx b (CondList.cons c rest) bs ht

/-- Witness for C3 at a concrete two-child xor (`true`, `false`): the
children disagree, so the composite evaluates to true. -/
theorem xor_composite_semantics_witness :
    evalCond trivEnv ctxRemove Condition.tt = Except.ok true ∧
    condValues trivEnv ctxRemove (CondList.cons Condition.ff CondList.nil) = some [false] ∧
    evalCond trivEnv ctxRemove
      (Condition.xor Condition.tt (CondList.cons Condition.ff CondList.nil)) = Except.ok true := by
  refine ⟨by simp [evalCond], by simp [condValues, evalCond], ?_⟩
  have h := xor_composite_semantics trivEnv ctxRemove Condition.tt
    (CondList.cons Condition.ff CondList.nil) true [false]
    (by simp [evalCond]) (by simp [condValues, evalCond])
  simpa using h

theorem chainLoop_stops_at_decisive (env : Env) (ctx : RuleContext) :
    ∀ (pre : List Rule) (h : Rule) (t : List Rule) (r : Rule) (suf : List Rule)
      (res : RuleResult),
      h :: t = pre ++ r :: suf →
      (∀ p ∈ pre, ∃ m, evalRule env ctx p = Except.ok ⟨RuleAction.cont, m⟩) →
      evalRule env ctx r = Except.ok res →
      (res.action = RuleAction.accept ∨ res.action = RuleAction.reject) →
      chainLoop env ctx h (RuleList.ofList t) = Except.ok res := by
  intro pre
  induction pre with
  | nil =>
      intro h t r suf res hsplit hpre hr hact
      simp only [List.nil_append] at hsplit
      obtain ⟨hh, ht⟩ := List.cons.inj hsplit
      rw [ht]
      rw [← hh] at hr
      cases suf with
      | nil => simp [RuleList.ofList, chainLoop, hr]
      | cons s srest =>
          rw [RuleList.ofList, chainLoop, hr, exceptBind_ok]
          rcases hact with ha | ha <;> rw [ha] <;> rfl
  | cons p pre2 ih =>
      intro h t r suf res hsplit hpre hr hact
      simp only [List.cons_append] at hsplit
      obtain ⟨hh, ht⟩ := List.cons.inj hsplit
      obtain ⟨m, hm⟩ := hpre p (by simp)
      rw [← hh] at hm
      rcases hx : pre2 ++ r :: suf with _ | ⟨h2, t2⟩
      · exact absurd hx (by simp)
      · rw [ht, hx, RuleList.ofList, chainLoop, hm, exceptBind_ok]
        show chainLoop env ctx h2 (RuleList.ofList t2) = Except.ok res
        exact ih h2 t2 r suf res hx.symm
          (fun q hq => hpre q (by simp [hq])) hr hact

theorem chainLoop_all_cont (env : Env) (ctx : RuleContext) :
    ∀ (t : List Rule) (h : Rule) (msgs : List String),
      (∀ p ∈ h :: t, ∃ m, evalRule env ctx p = Except.ok ⟨RuleAction.cont, m⟩) →
      evalRule env ctx ((h :: t).getLast (List.cons_ne_nil h t)) =
        Except.ok ⟨RuleAction.cont, msgs⟩ →
      chainLoop env ctx h (RuleList.ofList t) = Except.ok ⟨RuleAction.cont, msgs⟩ := by
  intro t
  induction t with
  | nil =>
      intro h msgs hall hlast
      rw [show ([h] : List Rule).getLast (List.cons_ne_nil h []) = h from rfl] at hlast
      simp [RuleList.ofList, chainLoop, hlast]
  | cons h2 t2 ih =>
      intro h msgs hall hlast
      obtain ⟨m, hm⟩ := hall h (by simp)
      have hlast2 : evalRule env ctx ((h2 :: t2).getLast (List.cons_ne_nil h2 t2)) =
          Except.ok ⟨RuleAction.cont, msgs⟩ := hlast
      rw [RuleList.ofList, chainLoop, hm, exceptBind_ok]
      show chainLoop env ctx h2 (RuleList.ofList t2) = Except.ok ⟨RuleAction.cont, msgs⟩
      exact ih h2 msgs (fun p hp => hall p (by simp [hp])) hlast2

/-- C4: for every non-empty Chain rule `h :: t`, evaluation runs sub-rules
in order and returns the result of the first sub-rule whose action is
Accept or Reject — independently of any later sub-rules `suf` — and when
every sub-rule returns Continue the chain returns action Accept together
with the messages of the last sub-rule. -/
theorem chain_semantics (env : Env) (ctx : RuleContext) :
    (∀ (h : Rule) (t : List Rule) (pre : List Rule) (r : Rule) (suf : List Rule)
       (res : RuleResult),
       h :: t = pre ++ r :: suf →
       (∀ p ∈ pre, ∃ m, evalRule env ctx p = Except.ok ⟨RuleAction.cont, m⟩) →
       evalRule env ctx r = Except.ok res →
       (res.action = RuleAction.accept ∨ res.action = RuleAction.reject) →
       evalRule env ctx (Rule.chain h (RuleList.ofList t)) = Except.ok res) ∧
    (∀ (h : Rule) (t : List Rule) (msgs : List String),
       (∀ p ∈ h :: t, ∃ m, evalRule env ctx p = Except.ok ⟨RuleAction.cont, m⟩) →
       evalRule env ctx ((h :: t).getLast (List.cons_ne_nil h t)) =
         Except.ok ⟨RuleAction.cont, msgs⟩ →
       evalRule env ctx (Rule.chain h (RuleList.ofList t)) =
         Except.ok ⟨RuleAction.accept, msgs⟩) := by
  constructor
  · intro h t pre r suf res hsplit hpre hr hact
    have hcl := chainLoop_stops_at_decisive env ctx pre h t r suf res hsplit hpre hr hact
    rw [evalRule, hcl]
    rcases hact with ha | ha <;> simp [ha]
  · intro h t msgs hall hlast
    have hcl := chainLoop_all_cont env ctx t h msgs hall hlast
    rw [evalRule, hcl]
    simp

/-- Witness for C4: a chain stopping at its accepting head (ignoring the
rejecting suffix), and an all-Continue chain of two conditionals ending in
Accept with the last sub-rule's (empty) messages. -/
theorem chain_semantics_witness :
    evalRule trivEnv ctxRemove
      (Rule.chain (Rule.accept ["a"]) (RuleList.ofList [Rule.reject ["b"]])) =
      Except.ok ⟨RuleAction.accept, ["a"]⟩ ∧
    evalRule trivEnv ctxRemove
      (Rule.chain (Rule.conditional Condition.tt none none)
        (RuleList.ofList [Rule.conditional Condition.tt none none])) =
      Except.ok ⟨RuleAction.accept, []⟩ := by
  constructor
  · exact (chain_semantics trivEnv ctxRemove).1 (Rule.accept ["a"]) [Rule.reject ["b"]]
      [] (Rule.accept ["a"]) [Rule.reject ["b"]] ⟨RuleAction.accept, ["a"]⟩ rfl
      (by simp) (by simp [evalRule]) (Or.inl rfl)
  · refine (chain_semantics trivEnv ctxRemove).2 (Rule.conditional Condition.tt none none)
      [Rule.conditional Condition.tt none none] [] ?_ ?_
    · intro p hp
      rcases List.mem_cons.mp hp with hp1 | hp2
      · subst hp1
        exact ⟨[], by simp [evalRule, evalCond, to_rule_result]⟩
      · rcases List.mem_singleton.mp hp2 with rfl
        exact ⟨[], by simp [evalRule, evalCond, to_rule_result]⟩
    · show evalRule trivEnv ctxRemove (Rule.conditional Condition.tt none none) =
        Except.ok ⟨RuleAction.cont, []⟩
      simp [evalRule, evalCond, to_rule_result]

/-- Every branch condition of the list evaluates to false without error. -/
def branchCondsAllFalse (env : Env) (ctx : RuleContext) : BranchList → Prop
  | BranchList.nil => True
  | BranchList.cons c _ rest =>
      evalCond env ctx c = Except.ok false ∧ branchCondsAllFalse env ctx rest

theorem selectLoop_all_false (env : Env) (ctx : RuleContext) :
    ∀ (branches : BranchList), branchCondsAllFalse env ctx branches →
      selectLoop env ctx branches ORule.none =
        Except.ok { action := RuleAction.reject, messages := [] }
  | BranchList.nil, _ => by simp [selectLoop]
  | BranchList.cons c r rest, h => by
      obtain ⟨hc, hrest⟩ := h
      rw [selectLoop, hc]
      exact selectLoop_all_false env ctx rest hrest

/-- C5: for every Select rule in which every branch condition evaluates to
false without error and no default rule is configured, evaluation returns
action Reject with an empty message list. -/
theorem select_no_match_no_default_rejects (env : Env) (ctx : RuleContext)
    (branches : BranchList) (h : branchCondsAllFalse env ctx branches) :
    evalRule env ctx (Rule.select branches ORule.none) =
      Except.ok { action := RuleAction.reject, messages := [] } := by
  rw [evalRule]
  exact selectLoop_all_false env ctx branches h

/-- Witness for C5: a single always-false branch and no default yields
Reject with no messages. -/
theorem select_no_match_no_default_rejects_witness :
    branchCondsAllFalse trivEnv ctxRemove
      (BranchList.cons Condition.ff (Rule.accept []) BranchList.nil) ∧
    evalRule trivEnv ctxRemove
      (Rule.select (BranchList.cons Condition.ff (Rule.accept []) BranchList.nil)
        ORule.none) =
      Except.ok { action := RuleAction.reject, messages := [] } := by
  refine ⟨⟨by simp [evalCond], trivial⟩, ?_⟩
  exact select_no_match_no_default_rejects trivEnv ctxRemove _
    ⟨by simp [evalCond], trivial⟩

/-- C6: for every input line whose two sides are both non-zero, the change
resolver constructs an UpdateRef whose force flag is true if and only if
either no merge base of the old and new commit exists or the merge base
differs from the old commit. -/
theorem resolveChange_update_force_iff (env : Env) (db : String) (line : ChangeLine)
    (h1 : is_hash_all_zeros line.old_commit = false)
    (h2 : is_hash_all_zeros line.new_commit = false) :
    resolve_change env db line =
      some (Change.updateRef line.ref_name line.old_commit line.new_commit
        (env.merge_base line.old_commit line.new_commit)
        ((env.merge_base line.old_commit line.new_commit).isNone ||
          (env.merge_base line.old_commit line.new_commit != some line.old_commit))
        { patch := env.diff line.old_commit line.new_commit
          log := lazy_log env (env.merge_base line.old_commit line.new_commit) line.new_commit
          file_status := env.diff_name_status line.old_commit line.new_commit }) := by
  rw [resolve_change]
  simp only [h1, h2, Bool.not_false]
  cases hmb : env.merge_base line.old_commit line.new_commit with
  | none => simp [hmb]
  | some base => simp [hmb, bne]

/-- Witness for C6 at a concrete line with both sides non-zero and no merge
base: the resolver produces a forced update. -/
theorem resolveChange_update_force_iff_witness :
    is_hash_all_zeros "a1" = false ∧ is_hash_all_zeros "b2" = false ∧
    resolve_change trivEnv "main" ⟨"a1", "b2", "refs/heads/main"⟩ =
      some (Change.updateRef "refs/heads/main" "a1" "b2" none true
        { patch := none, log := [], file_status := [] }) := by
  refine ⟨by decide, by decide, ?_⟩
  have h := resolveChange_update_force_iff trivEnv "main" ⟨"a1", "b2", "refs/heads/main"⟩
    (by decide) (by decide)
  simpa [trivEnv, lazy_log] using h

/-- The log entry used by the C1 failing input: a commit signed by key
ABCD. -/
def signedEntry : GitLogEntry :=
  { hash := "deadbeef", parents := [], author := "Alice <alice@example.org>",
    author_date := 0, committer := "Alice <alice@example.org>", committer_date := 0,
    signed_by_key_id := some "ABCD", message := "change" }

/-- The C1 failing input: an Add change whose whole commit log is signed by
the allowed key ABCD. -/
def ctxSignedAdd : RuleContext :=
  ⟨"main", [], Change.addRef "refs/heads/feature" "deadbeef"
    { patch := none, log := [signedEntry], file_status := [] }⟩

/-- C1: the claim states that an all-commits-signed condition with an
explicit allow-list evaluates to true when every log entry is signed by an
allowed key.  The source's allow-list loop falls through to `Ok(false)`
after checking every entry, so on a log consisting of one commit signed by
the allowed key ABCD the condition evaluates to false — the code
contradicts the claim (and the spec flags this fall-through as a likely
bug). -/
theorem allCommitsSigned_allowlist_false_on_fully_signed_log :
    evalCond trivEnv ctxSignedAdd
      (Condition.allCommitsSigned (some ⟨"ABCD", []⟩)) = Except.ok false := by
  simp [evalCond, get_commit_log, ctxSignedAdd, signedAllowedLoop, NE.toList, signedEntry]

/-- The C2 failing input: a webhook rule with a request timeout of 21000 ms
(over the 20000 ms maximum) and an in-bounds connect timeout of 1000 ms. -/
def oversizedRequestTimeoutRule : WebhookRule :=
  { url := "https://example.org/hook", config := none,
    request_timeout := some 21000, connect_timeout := some 1000,
    greeting_messages := none }

/-- C2: the claim states that a request timeout greater than 20 s with an
in-bounds connect timeout is rejected with a Validation error before any
network I/O.  The source's second validation guard compares
`connect_timeout` (not `request_timeout`) against `MAX_REQUEST_TIMEOUT`,
so the oversized request timeout passes validation and the request is
performed: with a transport answering 204, `perform_request` returns the
transport-derived result instead of a Validation error. -/
theorem performRequest_oversized_request_timeout_not_rejected :
    perform_request oversizedRequestTimeoutRule (Except.ok ⟨204, none⟩) =
      Except.ok { ok := true, messages := [] } := by
  simp [perform_request, oversizedRequestTimeoutRule, MAX_CONNECT_TIMEOUT,
    DEFAULT_CONNECT_TIMEOUT, MAX_REQUEST_TIMEOUT, DEFAULT_REQUEST_TIMEOUT,
    webhookResultOfResponse, statusIsSuccess]

/-- C7: for every webhook leaf whose HTTP request completes with a response
`resp`, the resulting rule action is Continue if and only if the response
status is 2xx (and Reject otherwise), and the returned messages are the
response body decoded as an ordered list of strings, empty when decoding
fails. -/
theorem webhook_leaf_response_mapping (env : Env) (ctx : RuleContext)
    (w : WebhookRule) (resp : HttpResponse)
    (h : env.webhook ctx.default_branch ctx.push_options w ctx.change =
      Except.ok (webhookResultOfResponse resp)) :
    ∃ r, evalRule env ctx (Rule.webhook w) = Except.ok r ∧
      (r.action = RuleAction.cont ↔ (200 ≤ resp.status ∧ resp.status < 300)) ∧
      (r.action = RuleAction.cont ∨ r.action = RuleAction.reject) ∧
      r.messages = resp.body_decoded.getD [] := by
  have hiff : statusIsSuccess resp.status = true ↔ (200 ≤ resp.status ∧ resp.status < 300) := by
    simp [statusIsSuccess]
  refine ⟨{ action := if statusIsSuccess resp.status then RuleAction.cont else RuleAction.reject,
            messages := resp.body_decoded.getD [] }, ?_, ?_, ?_, rfl⟩
  · rw [evalRule, h]
    simp [webhookResultOfResponse]
  · cases hs : statusIsSuccess resp.status with
    | true => simpa [hs] using hiff.mp hs
    | false =>
        rw [hs] at hiff
        simp only [hs, if_false]
        constructor
        · intro hcontra; exact absurd hcontra (by simp)
        · intro hrange; exact absurd (hiff.mpr hrange) (by simp)
  · cases hs : statusIsSuccess resp.status <;> simp [hs]

/-- The oracle used by the C7 witness: the webhook transport answers with
HTTP 200 and the decoded body `["hi"]`. -/
def envWebhookOk : Env :=
  { trivEnv with webhook := fun _ _ _ _ => Except.ok { ok := true, messages := ["hi"] } }

/-- The webhook rule used by the C7 witness. -/
def plainWebhookRule : WebhookRule :=
  { url := "https://example.org/hook", config := none, request_timeout := none,
    connect_timeout := none, greeting_messages := none }

/-- Witness for C7 at a concrete 200 response with body `["hi"]`. -/
theorem webhook_leaf_response_mapping_witness :
    envWebhookOk.webhook ctxRemove.default_branch ctxRemove.push_options plainWebhookRule
      ctxRemove.change = Except.ok (webhookResultOfResponse ⟨200, some ["hi"]⟩) ∧
    ∃ r, evalRule envWebhookOk ctxRemove (Rule.webhook plainWebhookRule) = Except.ok r ∧
      (r.action = RuleAction.cont ↔ (200 ≤ 200 ∧ 200 < 300)) ∧
      (r.action = RuleAction.cont ∨ r.action = RuleAction.reject) ∧
      r.messages = (some ["hi"] : Option (List String)).getD [] := by
  constructor
  · rfl
  · exact webhook_leaf_response_mapping envWebhookOk ctxRemove plainWebhookRule
      ⟨200, some ["hi"]⟩ rfl

/-- C9: for every invocation in which a configuration file is found but
fails to parse, the process prints a diagnostic and exits with code 0
without evaluating any rule against any change.  Part one: any loader error
makes the configuration stage of `main` exit 0 with a diagnostic instead of
proceeding to evaluation.  Part two: a present `hooks.yaml` whose content
fails to parse makes the loader return exactly that error. -/
theorem config_parse_failure_exits_zero :
    (∀ (env : Env) (e : String), load_config_from_default_branch env = Except.error e →
       mainConfigStage env = ConfigStageOutcome.exitWithoutEvaluation 0
         (some ("Failed to parse hook configuration: " ++ e))) ∧
    (∀ (env : Env) (s e : String), env.show_file "hooks.yaml" = Except.ok (some s) →
       env.parse_yaml s = Except.error e →
       load_config_from_default_branch env = Except.error e) := by
  constructor
  · intro env e h
    rw [mainConfigStage, h]
  · intro env s e h1 h2
    rw [load_config_from_default_branch]
    simp [load_config, h1, h2]

/-- The oracle used by the C9 witness: `hooks.yaml` exists but its content
does not parse (for example because it holds an empty regex pattern). -/
def envBadYaml : Env :=
  { trivEnv with
    show_file := fun n => if n = "hooks.yaml" then Except.ok (some "rule text") else Except.ok none
    parse_yaml := fun _ => Except.error "bad pattern" }

/-- Witness for C9 at the concrete broken-configuration oracle. -/
theorem config_parse_failure_exits_zero_witness :
    envBadYaml.show_file "hooks.yaml" = Except.ok (some "rule text") ∧
    envBadYaml.parse_yaml "rule text" = Except.error "bad pattern" ∧
    mainConfigStage envBadYaml = ConfigStageOutcome.exitWithoutEvaluation 0
      (some ("Failed to parse hook configuration: " ++ "bad pattern")) := by
  refine ⟨by simp [envBadYaml], rfl, ?_⟩
  exact config_parse_failure_exits_zero.1 envBadYaml "bad pattern"
    (config_parse_failure_exits_zero.2 envBadYaml "rule text" "bad pattern"
      (by simp [envBadYaml]) rfl)

/-- Modelled from the spec (amended for C8): a generic first-found loader
over an explicit candidate list of file names with their parsers, matching
the spec's words "loaded via git show HEAD:<name> in priority order ...
uses the first file that exists". -/
def loadFirstOf (env : Env) :
    List (String × (String → Except String Configuration)) →
      Except String (Option Configuration)
  | [] => Except.ok none
  | (name, parse) :: rest =>
      match load_config env name parse with
      | Except.error e => Except.error e
      | Except.ok (some c) => Except.ok (some c)
      | Except.ok none => loadFirstOf env rest

/-- The candidate list the source actually consults: `hooks.yaml`,
`hooks.yml`, `hooks.toml` — `hooks.json` is absent. -/
def configCandidates (env : Env) : List (String × (String → Except String Configuration)) :=
  [("hooks.yaml", env.parse_yaml), ("hooks.yml", env.parse_yaml), ("hooks.toml", env.parse_toml)]

/-- C8 (amended): the configuration loader attempts exactly the file names
hooks.yaml, hooks.yml, hooks.toml, in that priority order, each read via
`git show HEAD:<name>`, and uses the first file that exists; hooks.json is
not among the candidates. -/
theorem loader_first_of_yaml_yml_toml (env : Env) :
    load_config_from_default_branch env = loadFirstOf env (configCandidates env) := by
  rw [load_config_from_default_branch, configCandidates]
  rw [loadFirstOf]
  cases h1 : load_config env "hooks.yaml" env.parse_yaml with
  | error e => rfl
  | ok o1 =>
      cases o1 with
      | some c => rfl
      | none =>
          rw [loadFirstOf]
          cases h2 : load_config env "hooks.yml" env.parse_yaml with
          | error e => rfl
          | ok o2 =>
              cases o2 with
              | some c => rfl
              | none =>
                  rw [loadFirstOf]
                  cases h3 : load_config env "hooks.toml" env.parse_toml with
                  | error e => rfl
                  | ok o3 => cases o3 with
                    | some c => rfl
                    | none => rw [loadFirstOf]

/-- A trivially valid configuration value for the C8 counterexample. -/
def emptyConfig : Configuration := Configuration.version1 ⟨none, none, none, none⟩

/-- The C8 counterexample oracle: the repository contains only
`hooks.json` (every other file is absent), and every parser succeeds. -/
def envJsonOnly : Env :=
  { trivEnv with
    show_file := fun n =>
      if n = "hooks.json" then Except.ok (some "json config") else Except.ok none
    parse_yaml := fun _ => Except.ok emptyConfig
    parse_toml := fun _ => Except.ok emptyConfig }

/-- Counterexample for C8: with only `hooks.json` present the loader
returns no configuration at all — `hooks.json` is never attempted — so the
claim that such a repository has its configuration loaded from that file is
false on the code. -/
theorem loader_ignores_hooks_json :
    envJsonOnly.show_file "hooks.json" = Except.ok (some "json config") ∧
    load_config_from_default_branch envJsonOnly = Except.ok none := by
  constructor
  · simp [envJsonOnly]
  · rw [load_config_from_default_branch]
    simp [load_config, envJsonOnly]

theorem from_str_isSome_iff (t : String) :
    (FileStatus.from_str t).isSome = true ↔
      t ∈ ["A", "C", "D", "M", "R", "T", "U", "X", "B"] := by
  unfold FileStatus.from_str
  split <;> simp_all

/-- C10: `parse_name_status` yields a (status, path) pair for a line if and
only if the trimmed line splits into exactly two whitespace-separated
tokens and the first token is one of the nine single-letter status codes;
every other line — including rename or copy lines carrying a similarity
score such as R100, or three tokens — yields none and is therefore dropped
by the surrounding `filter_map`. -/
theorem parse_name_status_line_iff (line : String) :
    (∃ s p, parse_name_status_line (some line) = some (s, p)) ↔
    (∃ t1 t2, splitAsciiWhitespace line.trim = [t1, t2] ∧
      t1 ∈ ["A", "C", "D", "M", "R", "T", "U", "X", "B"]) := by
  rw [parse_name_status_line]
  cases hsplit : splitAsciiWhitespace line.trim with
  | nil => simp [hsplit]
  | cons t1 rest1 =>
      cases rest1 with
      | nil =>
          cases hf : FileStatus.from_str t1 with
          | none => simp [hsplit, hf]
          | some st => simp [hsplit, hf]
      | cons t2 rest2 =>
          cases rest2 with
          | nil =>
              cases hf : FileStatus.from_str t1 with
              | none =>
                  have hmem : ¬ t1 ∈ ["A", "C", "D", "M", "R", "T", "U", "X", "B"] := by
                    rw [← from_str_isSome_iff, hf]
                    simp
                  simp only [hsplit, hf]
                  simp
                  simpa using hmem
              | some st =>
                  have hmem : t1 ∈ ["A", "C", "D", "M", "R", "T", "U", "X", "B"] := by
                    rw [← from_str_isSome_iff, hf]
                    simp
                  simp only [hsplit, hf]
                  simp
                  simpa using hmem
          | cons t3 rest3 =>
              simp only [hsplit]
              cases FileStatus.from_str t1 <;> simp

end WebbedHook
